import Mathlib

/-!
Shallow embedding of `server.py` from the fusion-pdf repository.

The program merges a list of remote PDF catalogues into one output PDF and
builds a bookmark (outline) tree: one node per supplier, chapter sub-nodes,
and a parallel "navigation by category" subtree.  We embed the request data
model, the merge loop of the `fusion_pdf` endpoint, the chapter resolution
and category bucketing, the outline construction, the temp-file lifecycle
(as an event trace), and the retry configuration of
`fetch_pdf_stream_to_file`.
-/

namespace FusionPdf

/-- A chapter record of the request payload (`ch` in `server.py`).
`titre = none` models a missing `"titre"` key (Python `KeyError`);
`page_debut = none` models a missing or non-numeric `"page_debut"` value
(Python `KeyError` / `ValueError` in `int(...)`); `categorie = none`
models a missing `"categorie"` key (`ch.get("categorie", "autre")`). -/
structure Chapitre where
  titre : Option String
  categorie : Option String
  page_debut : Option Int
deriving DecidableEq

/-- One catalogue entry of the request payload (`cat` in `server.py`). -/
structure Catalogue where
  fournisseur : String
  url : String
  chapitres : List Chapitre
deriving DecidableEq

/-- Outcome of fetching and opening one source URL: `ok n` means the fetch
succeeded and `PdfReader` parsed a document with `n` pages; `fetchFail`
models `fetch_pdf_stream_to_file` raising (network error / bad HTTP status);
`parseFail` models `PdfReader` raising on malformed bytes. -/
inductive FetchOutcome where
  | ok (pages : Nat)
  | fetchFail (msg : String)
  | parseFail (msg : String)

/-- The environment: what fetching and parsing each URL yields. -/
def Env : Type := String → FetchOutcome

/-- Page count the environment assigns to a catalogue's URL (0 on failure). -/
def srcPages (env : Env) (c : Catalogue) : Nat :=
  match env c.url with
  | .ok n => n
  | _ => 0

/-- An entry appended to `bookmarks_par_categorie[cible]` in `server.py`:
`{"titre": f"{fournisseur} - {titre}", "page": page_absolue}`. -/
structure ChapterEntry where
  titre : String
  page : Nat
deriving DecidableEq

/-- A node of the output outline: `writer.add_outline_item(title, page,
parent=...)`, with children listed in insertion order. -/
inductive OutlineNode where
  | mk (titre : String) (page : Nat) (children : List OutlineNode)

def OutlineNode.titre : OutlineNode → String
  | .mk t _ _ => t

def OutlineNode.page : OutlineNode → Nat
  | .mk _ p _ => p

def OutlineNode.children : OutlineNode → List OutlineNode
  | .mk _ _ c => c

/-- `categories_connues` in `server.py`. -/
def categories_connues : List String :=
  ["carrelage", "robinetterie", "meuble", "sanitaire", "autre"]

/-- Python's `str.lower()` as used on category labels, embedded as a
character-wise lowercase map. -/
def strLower (s : String) : String := ⟨s.data.map Char.toLower⟩

/-- Resolution of one chapter (the body of the `for ch in chapitres` loop,
up to the point where the writer and buckets are updated).  Returns
`none` when the chapter's metadata is malformed — exactly when the Python
code raises inside the per-chapter `try` (missing title, or missing /
non-numeric start page) before any outline item or bucket entry is added.
On success returns `(titre, page_absolue, cible)` where
`page_absolue = page_offset + (max(1, page_debut) - 1)` and `cible` is the
lower-cased category folded into `"autre"` when unknown. -/
def resolveChapter (ch : Chapitre) (page_offset : Nat) :
    Option (String × Nat × String) :=
  match ch.titre, ch.page_debut with
  | some titre, some pd =>
      let categorie := strLower (ch.categorie.getD "autre")
      let debut : Nat := (max 1 pd - 1).toNat
      let page_absolue := page_offset + debut
      let cible := if categorie ∈ categories_connues then categorie else "autre"
      some (titre, page_absolue, cible)
  | _, _ => none

/-- `bookmarks_par_categorie[cible].append(entry)`: append `e` to the bucket
keyed `cible`, leaving every other bucket unchanged. -/
def addToBucket (buckets : List (String × List ChapterEntry)) (cible : String)
    (e : ChapterEntry) : List (String × List ChapterEntry) :=
  buckets.map fun b => if b.1 = cible then (b.1, b.2 ++ [e]) else b

/-- One iteration of the `for ch in chapitres` loop: on a resolvable chapter,
append `• titre` under the supplier node and the entry
`fournisseur - titre` to the resolved category bucket; on a malformed
chapter, leave the accumulator unchanged (the `except: pass`). -/
def chapterFold (fournisseur : String) (page_offset : Nat)
    (acc : List OutlineNode × List (String × List ChapterEntry))
    (ch : Chapitre) : List OutlineNode × List (String × List ChapterEntry) :=
  match resolveChapter ch page_offset with
  | none => acc
  | some (titre, page_absolue, cible) =>
      (acc.1 ++ [.mk ("• " ++ titre) page_absolue []],
       addToBucket acc.2 cible ⟨fournisseur ++ " - " ++ titre, page_absolue⟩)

/-- Error raised out of `fusion_pdf` (an `HTTPException`).  For a failure in
the per-catalogue loop the detail is `f"{fournisseur} | {e}"`, so we keep
the supplier label structured; `fournisseur = none` is the pre-loop
validation error. -/
structure MergeError where
  fournisseur : Option String
  cause : String

/-- Mutable state of the merge loop in `fusion_pdf`: the running
`page_offset`, the offsets recorded so far (one per catalogue, in order),
the supplier outline nodes added under the root so far, and
`bookmarks_par_categorie`. -/
structure MergeState where
  page_offset : Nat
  offsets : List Nat
  suppliers : List OutlineNode
  buckets : List (String × List ChapterEntry)

/-- One iteration of the `for cat in catalogues` loop.  A fetch failure
surfaces as the `HTTPException` detail
`f"{fournisseur} | Erreur téléchargement PDF: {e}"`, a parse failure as
`f"{fournisseur} | {e}"`.  On success: the supplier bookmark is added at
the current `page_offset`, all pages are appended, the chapters are folded
in, and `page_offset` advances by the source's page count. -/
def processCatalogue (env : Env) (st : MergeState) (cat : Catalogue) :
    Except MergeError MergeState :=
  match env cat.url with
  | .fetchFail msg =>
      .error ⟨some cat.fournisseur, "Erreur téléchargement PDF: " ++ msg⟩
  | .parseFail msg => .error ⟨some cat.fournisseur, msg⟩
  | .ok pages =>
      let folded := cat.chapitres.foldl
        (chapterFold cat.fournisseur st.page_offset) ([], st.buckets)
      .ok { page_offset := st.page_offset + pages
          , offsets := st.offsets ++ [st.page_offset]
          , suppliers := st.suppliers ++
              [.mk ("📁 " ++ cat.fournisseur) st.page_offset folded.1]
          , buckets := folded.2 }

/-- The merge loop short-circuits on the first error (the Python `raise`
aborts the `for` loop). -/
def mergeStep (env : Env) (acc : Except MergeError MergeState)
    (cat : Catalogue) : Except MergeError MergeState :=
  acc.bind fun st => processCatalogue env st cat

/-- A leaf `• {titre}` of the category subtree. -/
def entryLeaf (e : ChapterEntry) : OutlineNode :=
  .mk ("• " ++ e.titre) e.page []

/-- The `🗂️ Navigation par catégorie` node: one child per non-empty bucket,
in bucket order, titled `categorie.capitalize()`, targeting
`items[0]["page"]`, with one leaf per entry in order. -/
def buildCatRoot (buckets : List (String × List ChapterEntry)) : OutlineNode :=
  .mk "🗂️ Navigation par catégorie" 0
    (buckets.filterMap fun b =>
      match b.2 with
      | [] => none
      | e :: _ => some (.mk b.1.capitalize e.page (b.2.map entryLeaf)))

/-- Initial merge state: `page_offset = 0`, empty offsets and suppliers,
one empty bucket per known category in `categories_connues` order. -/
def initState : MergeState :=
  ⟨0, [], [], categories_connues.map fun c => (c, [])⟩

/-- Result of a successful merge: the output page count (`page_offset` after
the loop), the recorded offset table, and the outline root. -/
structure MergeOutput where
  totalPages : Nat
  offsets : List Nat
  root : OutlineNode

/-- The `POST /fusion-pdf` handler `fusion_pdf`, as a function of the fetch
environment: validates non-emptiness, runs the merge loop, then attaches
the category subtree as the last child of the root after the supplier
nodes. -/
def fusion_pdf (env : Env) (catalogues : List Catalogue)
    (titre_global : String) : Except MergeError MergeOutput :=
  if catalogues = [] then .error ⟨none, "Aucun catalogue fourni."⟩
  else
    match catalogues.foldl (mergeStep env) (.ok initState) with
    | .error e => .error e
    | .ok st =>
        .ok ⟨st.page_offset, st.offsets,
             .mk titre_global 0 (st.suppliers ++ [buildCatRoot st.buckets])⟩

/-- Cumulative prefix sums: `prefixSums [n₀, n₁, n₂] = [0, n₀, n₀+n₁]`,
the page offset each source should receive. -/
def prefixSums : List Nat → List Nat
  | [] => []
  | n :: ns => 0 :: (prefixSums ns).map (n + ·)

/-- The observable label of an outline node: its title and target page. -/
def nodeTag (n : OutlineNode) : String × Nat :=
  (n.titre, n.page)

/-! ## Temp-file lifecycle as an event trace

`fusion_pdf` appends every staged file object to `temp_files` and closes
them all in the `finally` block after the whole merge loop
(`# pour fermer proprement à la fin`).  We record the observable events of
one request in program order. -/

/-- Observable events of one `fusion_pdf` request, for source index `i`:
`fetch i` = `fetch_pdf_stream_to_file` returned a staged file for source
`i` (appended to `temp_files`); `appendPages i` = all of source `i`'s pages
were copied into the writer; `close i` = source `i`'s staged file was
closed (its spooled storage released); `output` = the merged document was
written out for the response. -/
inductive Ev where
  | fetch (i : Nat)
  | appendPages (i : Nat)
  | close (i : Nat)
  | output
deriving DecidableEq

/-- Loop part of the trace: events of the `for cat in catalogues` loop
starting at index `i`, together with the indices staged into `temp_files`
and whether the loop completed without raising.  A fetch failure stages
nothing for that source; a parse failure happens after the staged file was
appended to `temp_files`. -/
def mergeTraceGo (env : Env) : List Catalogue → Nat →
    List Ev × List Nat × Bool
  | [], _ => ([], [], true)
  | cat :: rest, i =>
    match env cat.url with
    | .fetchFail _ => ([], [], false)
    | .parseFail _ => ([Ev.fetch i], [i], false)
    | .ok _ =>
        let r := mergeTraceGo env rest (i + 1)
        (Ev.fetch i :: Ev.appendPages i :: r.1, i :: r.2.1, r.2.2)

/-- Full event trace of one request: the loop events, then (on success
only) the output write, then — in the `finally` block — the close of every
staged file, in staging order.  An empty request raises before staging
anything. -/
def mergeTrace (env : Env) (catalogues : List Catalogue) : List Ev :=
  if catalogues = [] then []
  else
    (mergeTraceGo env catalogues 0).1
      ++ (if (mergeTraceGo env catalogues 0).2.2 then [Ev.output] else [])
      ++ (mergeTraceGo env catalogues 0).2.1.map Ev.close

/-- `occursBeforeB a b tr` holds when both events occur in `tr` and the
first occurrence of `a` strictly precedes the first occurrence of `b`. -/
def occursBeforeB (a b : Ev) (tr : List Ev) : Bool :=
  match tr.findIdx? (· = a), tr.findIdx? (· = b) with
  | some i, some j => decide (i < j)
  | _, _ => false

/-! ## Retry configuration of `fetch_pdf_stream_to_file`

The constants below are the ones `server.py` passes to `urllib3.Retry`:
`total=5`, `backoff_factor=1.5`,
`status_forcelist=[429, 500, 502, 503, 504]`, `raise_on_status=False`.
The `Retry` machinery itself lives in urllib3, outside this repository, so
its driving loop is modelled from the spec. -/

/-- `status_forcelist=[429, 500, 502, 503, 504]` in `server.py`. -/
def status_forcelist : List Nat := [429, 500, 502, 503, 504]

/-- `total=5` in `server.py`: the bound on the number of retries. -/
def retry_total : Nat := 5

/-- `backoff_factor=1.5` in `server.py`, as the exact rational 3/2. -/
def backoff_factor : ℚ := 3 / 2

/-- Outcome of one HTTP attempt against the source server: a connection
error, or a response with the given status code. -/
inductive Attempt where
  | connError
  | status (code : Nat)
deriving DecidableEq

/-- Modelled from the spec: which attempt outcomes the configured `Retry`
retries — "connection errors and HTTP 429/500/502/503/504". -/
def retryable : Attempt → Bool
  | .connError => true
  | .status c => c ∈ status_forcelist

/-- Trace of one call to `fetch_pdf_stream_to_file`: how many HTTP requests
were issued, the backoff sleeps between them, and the result — `ok c` for a
success status `c` (the streamed body), or the `HTTPException` detail. -/
structure FetchTrace where
  attemptsMade : Nat
  backoffs : List ℚ
  result : Except String Nat

/-- Modelled from the spec: the urllib3 `Retry` driving loop (not in
`src/`), configured as in `server.py`.  `outcomes` is what the server
returns on successive attempts.  A retryable outcome (connection error or
forcelist status) consumes one retry and sleeps
`backoff_factor * 2 ^ (number of sleeps so far)`; when retries are
exhausted the fetch fails.  A non-retryable error status (≥ 400, not in
the forcelist) is returned to the caller at once — `raise_on_status=False`
— where `r.raise_for_status()` turns it into the `HTTPException` detail
`Erreur téléchargement PDF: ...` carrying the status and the URL.  A
success status below 400 completes the fetch. -/
def goFetch (url : String) (outcomes : List Attempt) (retriesLeft : Nat)
    (attempts : Nat) (slept : List ℚ) : FetchTrace :=
  match outcomes with
  | [] => ⟨attempts, slept,
      .error ("Erreur téléchargement PDF: no response for url: " ++ url)⟩
  | o :: rest =>
    if retryable o then
      match retriesLeft with
      | 0 => ⟨attempts + 1, slept,
          .error ("Erreur téléchargement PDF: Max retries exceeded with url: "
                  ++ url)⟩
      | r + 1 =>
          goFetch url rest r (attempts + 1)
            (slept ++ [backoff_factor * 2 ^ slept.length])
    else
      match o with
      | .connError => ⟨attempts + 1, slept,
          .error ("Erreur téléchargement PDF: connection error for url: "
                  ++ url)⟩
      | .status c =>
          if c < 400 then ⟨attempts + 1, slept, .ok c⟩
          else ⟨attempts + 1, slept,
              .error ("Erreur téléchargement PDF: " ++ toString c
                      ++ " Error for url: " ++ url)⟩

/-- `fetch_pdf_stream_to_file url`, run against the attempt outcomes the
server produces, starting with `total=5` retries available. -/
def fetch_pdf_stream_to_file (url : String) (outcomes : List Attempt) :
    FetchTrace :=
  goFetch url outcomes retry_total 0 []

/-! ## Helper lemmas -/

lemma addToBucket_keys (b : List (String × List ChapterEntry)) (c : String)
    (e : ChapterEntry) : (addToBucket b c e).map Prod.fst = b.map Prod.fst := by
  induction b with
  | nil => rfl
  | cons p t ih =>
      simp only [addToBucket, List.map_cons] at ih ⊢
      refine congrArg₂ _ ?_ ih
      by_cases h : p.1 = c <;> simp [h]

lemma chapterFold_keys (f : String) (off : Nat)
    (acc : List OutlineNode × List (String × List ChapterEntry))
    (ch : Chapitre) :
    ((chapterFold f off acc ch).2).map Prod.fst = acc.2.map Prod.fst := by
  rcases h : resolveChapter ch off with _ | ⟨t, p, c⟩ <;>
    simp [chapterFold, h, addToBucket_keys]

lemma chapterFoldl_keys (f : String) (off : Nat) (chs : List Chapitre)
    (acc : List OutlineNode × List (String × List ChapterEntry)) :
    ((chs.foldl (chapterFold f off) acc).2).map Prod.fst
      = acc.2.map Prod.fst := by
  induction chs generalizing acc with
  | nil => rfl
  | cons ch t ih => rw [List.foldl_cons, ih, chapterFold_keys]

/-- Master invariant of the merge loop, for a run in which every catalogue
fetches and parses successfully: the fold succeeds and the final state's
page offset, offset table, supplier node labels and bucket keys are
determined by the sources' page counts. -/
lemma foldl_mergeStep_ok (env : Env) (cats : List Catalogue) (st : MergeState)
    (hok : ∀ c ∈ cats, ∃ n, env c.url = .ok n) :
    ∃ st', cats.foldl (mergeStep env) (.ok st) = .ok st' ∧
      st'.page_offset = st.page_offset + (cats.map (srcPages env)).sum ∧
      st'.offsets = st.offsets
        ++ (prefixSums (cats.map (srcPages env))).map (st.page_offset + ·) ∧
      st'.suppliers.map nodeTag = st.suppliers.map nodeTag
        ++ (cats.zip (prefixSums (cats.map (srcPages env)))).map
            (fun p => ("📁 " ++ p.1.fournisseur, st.page_offset + p.2)) ∧
      st'.buckets.map Prod.fst = st.buckets.map Prod.fst := by
  induction cats generalizing st with
  | nil => exact ⟨st, rfl, by simp, by simp [prefixSums], by simp [prefixSums], rfl⟩
  | cons c cs ih =>
    obtain ⟨n, hn⟩ := hok c (List.mem_cons_self _ _)
    have hsrc : srcPages env c = n := by simp [srcPages, hn]
    have hstep : processCatalogue env st c = .ok
        { page_offset := st.page_offset + n
        , offsets := st.offsets ++ [st.page_offset]
        , suppliers := st.suppliers ++
            [.mk ("📁 " ++ c.fournisseur) st.page_offset
              (c.chapitres.foldl (chapterFold c.fournisseur st.page_offset)
                ([], st.buckets)).1]
        , buckets := (c.chapitres.foldl
            (chapterFold c.fournisseur st.page_offset) ([], st.buckets)).2 } := by
      simp [processCatalogue, hn]
    obtain ⟨st', hfold, hpo, hoff, hsup, hbk⟩ :=
      ih _ (fun a ha => hok a (List.mem_cons_of_mem _ ha))
    refine ⟨st', ?_, ?_, ?_, ?_, ?_⟩
    · rw [List.foldl_cons]
      show cs.foldl (mergeStep env) (Except.bind (.ok st) _) = .ok st'
      rw [Except.bind, hstep]
      exact hfold
    · simpa [hsrc, Nat.add_assoc] using hpo
    · rw [hoff]
      simp only [List.map_cons, hsrc, prefixSums, List.map_map]
      simp [Function.comp, Nat.add_assoc, List.append_assoc]
    · rw [hsup]
      simp only [List.map_cons, hsrc, prefixSums, List.zip_cons_cons,
        List.zip_map_right, List.map_map, List.map_append, List.map_cons]
      simp [nodeTag, OutlineNode.titre, OutlineNode.page, Function.comp,
        Nat.add_assoc, List.append_assoc, Prod.map]
    · rw [hbk]
      simp [chapterFoldl_keys]

lemma prefixSums_length (l : List Nat) : (prefixSums l).length = l.length := by
  induction l with
  | nil => rfl
  | cons n ns ih => simp [prefixSums, ih]

lemma prefixSums_chain (l : List Nat) (b : Nat) (hl : ∀ n ∈ l, 0 < n) :
    List.Chain' (· < ·) ((prefixSums l).map (b + ·)) := by
  induction l generalizing b with
  | nil => simp [prefixSums]
  | cons n ns ih =>
    have hn : 0 < n := hl n (List.mem_cons_self _ _)
    have ihs := ih (b + n) (fun m hm => hl m (List.mem_cons_of_mem _ hm))
    have hfe : ((b + ·) ∘ (n + ·)) = ((b + n) + ·) := by
      funext x; simp [Function.comp]; omega
    simp only [prefixSums, List.map_cons, List.map_map, hfe]
    rw [List.chain'_cons']
    refine ⟨fun y hy => ?_, ihs⟩
    rcases ns with _ | ⟨m, ms⟩
    · simp [prefixSums] at hy
    · simp only [prefixSums, List.map_cons, List.head?_cons,
        Option.mem_def, Option.some.injEq] at hy
      omega

/-! ## Claims -/

/-- C1: for every non-empty request whose sources all fetch and parse
successfully (each with at least one page), the merge succeeds, the output
page count is the sum of the sources' page counts, the recorded offset
table is exactly the list of cumulative prefix sums of the page counts in
request order, and the offset table is strictly increasing. -/
theorem c1_pages_and_offsets (env : Env) (cats : List Catalogue)
    (t : String) (hne : cats ≠ [])
    (hok : ∀ c ∈ cats, ∃ n, 0 < n ∧ env c.url = .ok n) :
    ∃ out, fusion_pdf env cats t = .ok out ∧
      out.totalPages = (cats.map (srcPages env)).sum ∧
      out.offsets = prefixSums (cats.map (srcPages env)) ∧
      List.Chain' (· < ·) out.offsets := by
  obtain ⟨st', hfold, hpo, hoff, _, _⟩ :=
    foldl_mergeStep_ok env cats initState
      (fun c hc => (hok c hc).imp fun n h => h.2)
  have hoff' : st'.offsets = prefixSums (cats.map (srcPages env)) := by
    simpa [initState] using hoff
  refine ⟨⟨st'.page_offset, st'.offsets, .mk t 0 (st'.suppliers ++ [buildCatRoot st'.buckets])⟩, ?_, ?_, ?_, ?_⟩
  · simp only [fusion_pdf, if_neg hne]
    rw [hfold]
  · simpa [initState] using hpo
  · exact hoff'
  · rw [hoff']
    have := prefixSums_chain (cats.map (srcPages env)) 0 ?_
    · simpa using this
    · intro n hn
      simp only [List.mem_map] at hn
      obtain ⟨c, hc, rfl⟩ := hn
      obtain ⟨m, hm, he⟩ := hok c hc
      simpa [srcPages, he] using hm

/-- Concrete successful environment: `a.pdf` has 3 pages, anything else 2. -/
def envW : Env := fun u => if u = "a.pdf" then .ok 3 else .ok 2

def catA : Catalogue := ⟨"A", "a.pdf", []⟩

def catB : Catalogue := ⟨"B", "b.pdf", []⟩

theorem c1_pages_and_offsets_witness :
    ∃ out, fusion_pdf envW [catA, catB] "T" = .ok out ∧
      out.totalPages = ([catA, catB].map (srcPages envW)).sum ∧
      out.offsets = prefixSums ([catA, catB].map (srcPages envW)) ∧
      List.Chain' (· < ·) out.offsets :=
  c1_pages_and_offsets envW [catA, catB] "T" (by simp)
    (by
      intro c hc
      simp only [List.mem_cons, List.not_mem_nil, or_false] at hc
      rcases hc with rfl | rfl
      · exact ⟨3, by norm_num, rfl⟩
      · exact ⟨2, by norm_num, rfl⟩)

lemma foldl_mergeStep_error (env : Env) (cats : List Catalogue)
    (e : MergeError) : cats.foldl (mergeStep env) (.error e) = .error e := by
  induction cats with
  | nil => rfl
  | cons c cs ih => simpa [mergeStep, Except.bind] using ih

/-- Events of the loop part of the trace are only fetches and page appends,
and every fetched index is staged. -/
lemma mergeTraceGo_spec (env : Env) (cats : List Catalogue) (i : Nat) :
    (∀ e ∈ (mergeTraceGo env cats i).1,
        (∀ j, e ≠ Ev.close j) ∧ e ≠ Ev.output) ∧
    (∀ j, Ev.fetch j ∈ (mergeTraceGo env cats i).1 →
        j ∈ (mergeTraceGo env cats i).2.1) := by
  induction cats generalizing i with
  | nil => simp [mergeTraceGo]
  | cons c cs ih =>
    cases h : env c.url with
    | fetchFail m => simp [mergeTraceGo, h]
    | parseFail m => simp [mergeTraceGo, h]
    | ok n =>
      obtain ⟨ih1, ih2⟩ := ih (i + 1)
      constructor
      · intro e he
        simp only [mergeTraceGo, h, List.mem_cons] at he
        rcases he with rfl | rfl | he
        · simp
        · simp
        · exact ih1 e he
      · intro j hj
        simp only [mergeTraceGo, h, List.mem_cons] at hj ⊢
        rcases hj with hj | hj | hj
        · exact .inl (by injection hj)
        · exact absurd hj (by simp)
        · exact .inr (ih2 j hj)

/-- If every catalogue before `c` succeeds and `c`'s fetch or parse fails,
the loop flag of the trace is `false` (the loop raised). -/
lemma mergeTraceGo_fail (env : Env) (pre post : List Catalogue)
    (c : Catalogue) (m : String)
    (hpre : ∀ a ∈ pre, ∃ n, env a.url = .ok n)
    (hfail : env c.url = .fetchFail m ∨ env c.url = .parseFail m) :
    ∀ i, (mergeTraceGo env (pre ++ c :: post) i).2.2 = false := by
  induction pre with
  | nil =>
    intro i
    rcases hfail with h | h <;> simp [mergeTraceGo, h]
  | cons a t ih =>
    intro i
    obtain ⟨n, hn⟩ := hpre a (List.mem_cons_self _ _)
    simpa [mergeTraceGo, hn] using
      ih (fun x hx => hpre x (List.mem_cons_of_mem _ hx)) (i + 1)

/-- C2: if every source before `c` fetches and parses successfully and `c`'s
fetch or parse fails, the whole merge fails with an error naming `c`'s
supplier label, and no output document is ever produced (the `output` event
does not occur in the request trace, so the already-appended earlier
sources are not returned as a partial result). -/
theorem c2_failure_aborts (env : Env) (pre post : List Catalogue)
    (c : Catalogue) (t m : String)
    (hpre : ∀ a ∈ pre, ∃ n, env a.url = .ok n)
    (hfail : env c.url = .fetchFail m ∨ env c.url = .parseFail m) :
    (∃ e, fusion_pdf env (pre ++ c :: post) t = .error e ∧
        e.fournisseur = some c.fournisseur) ∧
    Ev.output ∉ mergeTrace env (pre ++ c :: post) := by
  have hne : pre ++ c :: post ≠ [] := by simp
  constructor
  · obtain ⟨st', hfold, -, -, -, -⟩ := foldl_mergeStep_ok env pre initState hpre
    have hproc : ∃ cause, processCatalogue env st' c
        = .error ⟨some c.fournisseur, cause⟩ := by
      rcases hfail with h | h
      · exact ⟨"Erreur téléchargement PDF: " ++ m,
          by simp [processCatalogue, h]⟩
      · exact ⟨m, by simp [processCatalogue, h]⟩
    obtain ⟨cause, hproc⟩ := hproc
    refine ⟨⟨some c.fournisseur, cause⟩, ?_, rfl⟩
    simp only [fusion_pdf, if_neg hne]
    rw [List.foldl_append, hfold, List.foldl_cons]
    have hstep : mergeStep env (.ok st') c
        = .error ⟨some c.fournisseur, cause⟩ := by
      simp [mergeStep, Except.bind, hproc]
    rw [hstep, foldl_mergeStep_error]
  · have hflag := mergeTraceGo_fail env pre post c m hpre hfail 0
    have hspec := mergeTraceGo_spec env (pre ++ c :: post) 0
    simp only [mergeTrace, if_neg hne, hflag, List.mem_append, if_false]
    intro hmem
    rcases hmem with (hmem | hmem) | hmem
    · exact (hspec.1 _ hmem).2 rfl
    · simp at hmem
    · simp only [List.mem_map] at hmem
      obtain ⟨j, -, hj⟩ := hmem
      exact Ev.noConfusion hj

/-- Concrete failing environment: `a.pdf` succeeds, `bad.pdf`'s fetch gets
a 404. -/
def envFail : Env := fun u =>
  if u = "a.pdf" then .ok 3
  else .fetchFail "404 Client Error: Not Found for url: bad.pdf"

def catBad : Catalogue := ⟨"B", "bad.pdf", []⟩

theorem c2_failure_aborts_witness :
    (∃ e, fusion_pdf envFail [catA, catBad] "T" = .error e ∧
        e.fournisseur = some catBad.fournisseur) ∧
    Ev.output ∉ mergeTrace envFail [catA, catBad] :=
  c2_failure_aborts envFail [catA] [] catBad "T"
    "404 Client Error: Not Found for url: bad.pdf"
    (by
      intro a ha
      simp only [List.mem_cons, List.not_mem_nil, or_false] at ha
      subst ha
      exact ⟨3, rfl⟩)
    (Or.inl rfl)

/-- C3: a chapter with an integer start page resolves to the bookmark
target `offset + max(0, startPage - 1)` — in particular `startPage = 1`
targets exactly the offset page, and `startPage ≤ 0` is clamped to the
offset page instead of failing. -/
theorem c3_chapter_clamped_low (ch : Chapitre) (off : Nat) (tt : String)
    (p : Int) (ht : ch.titre = some tt) (hp : ch.page_debut = some p) :
    ∃ cible, resolveChapter ch off
        = some (tt, off + (max 0 (p - 1)).toNat, cible) ∧
      (p = 1 → off + (max 0 (p - 1)).toNat = off) ∧
      (p ≤ 0 → off + (max 0 (p - 1)).toNat = off) := by
  have hmx : (max 1 p - 1).toNat = (max 0 (p - 1)).toNat := by omega
  refine ⟨if strLower (ch.categorie.getD "autre") ∈ categories_connues
      then strLower (ch.categorie.getD "autre") else "autre",
    ?_, fun h1 => by omega, fun h0 => by omega⟩
  simp only [resolveChapter, ht, hp]
  rw [hmx]

theorem c3_chapter_clamped_low_witness :
    (∃ cible, resolveChapter ⟨some "Intro", some "Sanitaire", some 1⟩ 3
        = some ("Intro", 3 + (max 0 ((1 : Int) - 1)).toNat, cible) ∧
      ((1 : Int) = 1 → 3 + (max 0 ((1 : Int) - 1)).toNat = 3) ∧
      ((1 : Int) ≤ 0 → 3 + (max 0 ((1 : Int) - 1)).toNat = 3)) ∧
    (∃ cible, resolveChapter ⟨some "Neg", none, some (-4)⟩ 7
        = some ("Neg", 7 + (max 0 ((-4 : Int) - 1)).toNat, cible) ∧
      ((-4 : Int) = 1 → 7 + (max 0 ((-4 : Int) - 1)).toNat = 7) ∧
      ((-4 : Int) ≤ 0 → 7 + (max 0 ((-4 : Int) - 1)).toNat = 7)) :=
  ⟨c3_chapter_clamped_low ⟨some "Intro", some "Sanitaire", some 1⟩ 3
      "Intro" 1 rfl rfl,
   c3_chapter_clamped_low ⟨some "Neg", none, some (-4)⟩ 7 "Neg" (-4) rfl rfl⟩

/-- C10: no upper clamping is applied to chapter start pages: a chapter
with `startPage = p ≥ 1` always targets `offset + p - 1`, and when `p`
exceeds the source's page count this target lies at or beyond the end of
that source's page range in the output. -/
theorem c10_no_upper_clamp (ch : Chapitre) (off pages : Nat) (tt : String)
    (p : Int) (ht : ch.titre = some tt) (hp : ch.page_debut = some p)
    (h1 : 1 ≤ p) :
    ∃ cible, resolveChapter ch off = some (tt, off + (p - 1).toNat, cible) ∧
      ((pages : Int) < p → off + pages ≤ off + (p - 1).toNat) := by
  have hmx : (max 1 p - 1).toNat = (p - 1).toNat := by omega
  refine ⟨if strLower (ch.categorie.getD "autre") ∈ categories_connues
      then strLower (ch.categorie.getD "autre") else "autre",
    ?_, fun hlt => by omega⟩
  simp only [resolveChapter, ht, hp]
  rw [hmx]

theorem c10_no_upper_clamp_witness :
    ∃ cible, resolveChapter ⟨some "Annexe", some "meuble", some 10⟩ 5
        = some ("Annexe", 5 + ((10 : Int) - 1).toNat, cible) ∧
      ((2 : Nat) < (10 : Int) → 5 + 2 ≤ 5 + ((10 : Int) - 1).toNat) :=
  c10_no_upper_clamp ⟨some "Annexe", some "meuble", some 10⟩ 5 2 "Annexe" 10
    rfl rfl (by norm_num)

/-- C5: a chapter whose lower-cased category label is not one of the known
categories resolves to the reserved `"autre"` bucket, and appending its
entry touches only the `"autre"` bucket: every other bucket of the table
is returned unchanged, so the entry is never duplicated across buckets. -/
theorem c5_unknown_category_only_autre (ch : Chapitre) (off : Nat)
    (tt : String) (p : Int) (ht : ch.titre = some tt)
    (hp : ch.page_debut = some p)
    (hunk : strLower (ch.categorie.getD "autre") ∉ categories_connues)
    (l0 l1 l2 l3 l4 : List ChapterEntry) (e : ChapterEntry) :
    (∃ pg, resolveChapter ch off = some (tt, pg, "autre")) ∧
      addToBucket [("carrelage", l0), ("robinetterie", l1), ("meuble", l2),
          ("sanitaire", l3), ("autre", l4)] "autre" e
        = [("carrelage", l0), ("robinetterie", l1), ("meuble", l2),
           ("sanitaire", l3), ("autre", l4 ++ [e])] := by
  constructor
  · exact ⟨off + (max 1 p - 1).toNat,
      by simp only [resolveChapter, ht, hp, if_neg hunk]⟩
  · simp [addToBucket]

theorem c5_unknown_category_only_autre_witness :
    (∃ pg, resolveChapter ⟨some "Parquets", some "Décoration", some 2⟩ 4
        = some ("Parquets", pg, "autre")) ∧
      addToBucket [("carrelage", []), ("robinetterie", []), ("meuble", []),
          ("sanitaire", []), ("autre", [])] "autre" ⟨"X - Parquets", 5⟩
        = [("carrelage", []), ("robinetterie", []), ("meuble", []),
           ("sanitaire", []), ("autre", [(⟨"X - Parquets", 5⟩ : ChapterEntry)])] :=
  c5_unknown_category_only_autre ⟨some "Parquets", some "Décoration", some 2⟩
    4 "Parquets" 2 rfl rfl (by decide) [] [] [] [] [] ⟨"X - Parquets", 5⟩

lemma resolveChapter_malformed (ch : Chapitre)
    (hbad : ch.titre = none ∨ ch.page_debut = none) (off : Nat) :
    resolveChapter ch off = none := by
  rcases hbad with h | h
  · rw [resolveChapter, h]
  · rw [resolveChapter, h]
    rcases htt : ch.titre with _ | tt <;> rfl

/-- C7: a chapter with malformed metadata (missing title, or a missing /
non-numeric start page) never aborts the merge: the whole request produces
exactly the same result — same success/failure, same pages, offsets,
supplier nodes, chapter bookmarks and category buckets — as the request
with that chapter removed, so the chapter appears nowhere and the merge
continues with the remaining chapters and sources. -/
theorem c7_malformed_chapter_dropped (env : Env) (pre post : List Catalogue)
    (c : Catalogue) (chs1 chs2 : List Chapitre) (ch : Chapitre) (t : String)
    (hbad : ch.titre = none ∨ ch.page_debut = none) :
    fusion_pdf env (pre ++ { c with chapitres := chs1 ++ ch :: chs2 } :: post) t
      = fusion_pdf env (pre ++ { c with chapitres := chs1 ++ chs2 } :: post) t := by
  have hchap : ∀ off acc,
      chapterFold c.fournisseur off acc ch = acc := by
    intro off acc
    simp [chapterFold, resolveChapter_malformed ch hbad off]
  have hpc : ∀ st : MergeState,
      processCatalogue env st { c with chapitres := chs1 ++ ch :: chs2 }
        = processCatalogue env st { c with chapitres := chs1 ++ chs2 } := by
    intro st
    cases h : env c.url with
    | fetchFail m => simp [processCatalogue, h]
    | parseFail m => simp [processCatalogue, h]
    | ok n =>
        simp only [processCatalogue, h]
        rw [List.foldl_append, List.foldl_cons, hchap, ← List.foldl_append]
  have hms : ∀ acc, mergeStep env acc { c with chapitres := chs1 ++ ch :: chs2 }
      = mergeStep env acc { c with chapitres := chs1 ++ chs2 } := by
    intro acc
    cases acc with
    | error e => rfl
    | ok st => simpa [mergeStep, Except.bind] using hpc st
  have hne1 : pre ++ { c with chapitres := chs1 ++ ch :: chs2 } :: post
      ≠ [] := by simp
  have hne2 : pre ++ { c with chapitres := chs1 ++ chs2 } :: post ≠ [] := by
    simp
  simp only [fusion_pdf, if_neg hne1, if_neg hne2]
  rw [List.foldl_append, List.foldl_append, List.foldl_cons, List.foldl_cons,
    hms]

def catGood : Catalogue :=
  ⟨"C", "b.pdf", [⟨some "Intro", some "sanitaire", some 1⟩]⟩

theorem c7_malformed_chapter_dropped_witness :
    fusion_pdf envW
        [{ catGood with chapitres :=
            [] ++ (⟨none, some "meuble", some 2⟩ : Chapitre)
              :: catGood.chapitres }] "T"
      = fusion_pdf envW
          [{ catGood with chapitres := [] ++ catGood.chapitres }] "T" :=
  c7_malformed_chapter_dropped envW [] [] catGood [] catGood.chapitres
    ⟨none, some "meuble", some 2⟩ "T" (Or.inl rfl)

/-- C8 counterexample: with two successfully fetched sources, the trace of
the request is `fetch 0, appendPages 0, fetch 1, appendPages 1, output,
close 0, close 1` — source 0's staged file is closed only *after* source 1
is fetched (indeed after the whole merge), so staged documents are not
released immediately after their pages are copied, and more than one
source's staging storage is held at a time. -/
theorem c8_immediate_release_counterexample :
    mergeTrace envW [catA, catB]
      = [.fetch 0, .appendPages 0, .fetch 1, .appendPages 1, .output,
         .close 0, .close 1] ∧
    occursBeforeB (Ev.fetch 1) (Ev.close 0) (mergeTrace envW [catA, catB])
      = true ∧
    occursBeforeB (Ev.close 0) (Ev.fetch 1) (mergeTrace envW [catA, catB])
      = false := by
  refine ⟨?_, ?_, ?_⟩ <;> decide

/-- C8 as amended: the staged source documents are not closed inside the
merge loop at all; every `close` event happens after every other event of
the request (in the `finally` block once the whole merge has completed or
failed), and every source that was staged is eventually closed. -/
theorem c8_closes_only_after_merge (env : Env) (cats : List Catalogue) :
    ∃ (body : List Ev) (staged : List Nat),
      mergeTrace env cats = body ++ staged.map Ev.close ∧
      (∀ e ∈ body, ∀ i, e ≠ Ev.close i) ∧
      (∀ i, Ev.fetch i ∈ body → i ∈ staged) := by
  by_cases hne : cats = []
  · exact ⟨[], [], by simp [mergeTrace, hne], by simp, by simp⟩
  · obtain ⟨h1, h2⟩ := mergeTraceGo_spec env cats 0
    refine ⟨(mergeTraceGo env cats 0).1
        ++ (if (mergeTraceGo env cats 0).2.2 then [Ev.output] else []),
      (mergeTraceGo env cats 0).2.1, ?_, ?_, ?_⟩
    · simp [mergeTrace, if_neg hne, List.append_assoc]
    · intro e he i
      rcases List.mem_append.1 he with he | he
      · exact (h1 e he).1 i
      · have heq : e = Ev.output := by
          by_cases hf : (mergeTraceGo env cats 0).2.2 <;> simp [hf] at he
          exact he
        subst heq
        simp
    · intro i hi
      rcases List.mem_append.1 hi with hi | hi
      · exact h2 i hi
      · exfalso
        by_cases hf : (mergeTraceGo env cats 0).2.2 <;> simp [hf] at hi

/-- C4: on a successfully merged request, the root's children are the
supplier nodes in request order followed by the category node, and the
`k`-th supplier node is titled `📁 {fournisseur}` and targets the `k`-th
cumulative prefix sum of the page counts — the absolute page at which that
supplier's first page lands in the output. -/
theorem c4_supplier_bookmarks (env : Env) (cats : List Catalogue)
    (t : String) (hne : cats ≠ [])
    (hok : ∀ c ∈ cats, ∃ n, 0 < n ∧ env c.url = .ok n) :
    ∃ (out : MergeOutput) (sup : List OutlineNode) (catNode : OutlineNode),
      fusion_pdf env cats t = .ok out ∧
      out.root.children = sup ++ [catNode] ∧
      sup.map nodeTag
        = (cats.zip (prefixSums (cats.map (srcPages env)))).map
            (fun p => ("📁 " ++ p.1.fournisseur, p.2)) := by
  obtain ⟨st', hfold, -, -, hsup, -⟩ :=
    foldl_mergeStep_ok env cats initState
      (fun c hc => (hok c hc).imp fun n h => h.2)
  refine ⟨⟨st'.page_offset, st'.offsets,
      .mk t 0 (st'.suppliers ++ [buildCatRoot st'.buckets])⟩,
    st'.suppliers, buildCatRoot st'.buckets, ?_, rfl, ?_⟩
  · simp only [fusion_pdf, if_neg hne]
    rw [hfold]
  · simpa [initState] using hsup

theorem c4_supplier_bookmarks_witness :
    ∃ (out : MergeOutput) (sup : List OutlineNode) (catNode : OutlineNode),
      fusion_pdf envW [catA, catB] "T" = .ok out ∧
      out.root.children = sup ++ [catNode] ∧
      sup.map nodeTag
        = ([catA, catB].zip
            (prefixSums ([catA, catB].map (srcPages envW)))).map
            (fun p => ("📁 " ++ p.1.fournisseur, p.2)) :=
  c4_supplier_bookmarks envW [catA, catB] "T" (by simp)
    (by
      intro c hc
      simp only [List.mem_cons, List.not_mem_nil, or_false] at hc
      rcases hc with rfl | rfl
      · exact ⟨3, by norm_num, rfl⟩
      · exact ⟨2, by norm_num, rfl⟩)

/-! ## Category bucket contents -/

/-- Lookup of a category bucket by key (`bookmarks_par_categorie[k]`). -/
def getBucket (bks : List (String × List ChapterEntry)) (k : String) :
    List ChapterEntry :=
  ((bks.find? fun b => b.1 == k).map Prod.snd).getD []

/-- The entries the chapters of one catalogue contribute to bucket `k`, in
chapter order: one entry per resolvable chapter whose resolved category is
`k`. -/
def chapterEntries (f : String) (off : Nat) (k : String)
    (chs : List Chapitre) : List ChapterEntry :=
  chs.filterMap fun ch =>
    match resolveChapter ch off with
    | some (tt, pg, cbl) =>
        if cbl = k then some ⟨f ++ " - " ++ tt, pg⟩ else none
    | none => none

/-- The entries bucket `k` receives from a whole request, catalogue by
catalogue in request order, each catalogue's chapters offset by the pages
accumulated before it. -/
def allEntries (env : Env) (cats : List Catalogue) (base : Nat)
    (k : String) : List ChapterEntry :=
  match cats with
  | [] => []
  | c :: cs => chapterEntries c.fournisseur base k c.chapitres
      ++ allEntries env cs (base + srcPages env c) k

lemma find?_addToBucket (bks : List (String × List ChapterEntry))
    (c k : String) (e : ChapterEntry) :
    ((addToBucket bks c e).find? fun b => b.1 == k)
      = (bks.find? fun b => b.1 == k).map
          (fun b => if b.1 = c then (b.1, b.2 ++ [e]) else b) := by
  induction bks with
  | nil => rfl
  | cons p t ih =>
    have hfst : (if p.1 = c then (p.1, p.2 ++ [e]) else p).1 = p.1 := by
      by_cases hpc : p.1 = c <;> simp [hpc]
    simp only [addToBucket, List.map_cons, List.find?] at ih ⊢
    rw [hfst]
    by_cases hpk : (p.1 == k) = true
    · simp [hpk]
    · simp only [Bool.not_eq_true] at hpk
      simp only [hpk]
      exact ih

lemma getBucket_addToBucket_self (bks : List (String × List ChapterEntry))
    (c : String) (e : ChapterEntry) (hc : c ∈ bks.map Prod.fst) :
    getBucket (addToBucket bks c e) c = getBucket bks c ++ [e] := by
  have hsome : ∃ b, (bks.find? fun b => b.1 == c) = some b := by
    rw [← Option.isSome_iff_exists, List.find?_isSome]
    obtain ⟨b, hb, hfst⟩ := List.mem_map.1 hc
    exact ⟨b, hb, by simp [hfst]⟩
  obtain ⟨b, hb⟩ := hsome
  have hbc : b.1 = c := by
    have := List.find?_some hb
    simpa using this
  simp [getBucket, find?_addToBucket, hb, hbc]

lemma getBucket_addToBucket_other (bks : List (String × List ChapterEntry))
    (c k : String) (e : ChapterEntry) (hk : k ≠ c) :
    getBucket (addToBucket bks c e) k = getBucket bks k := by
  rw [getBucket, find?_addToBucket]
  cases hb : (bks.find? fun b => b.1 == k) with
  | none => simp [getBucket, hb]
  | some b =>
    have hbk : b.1 = k := by
      have := List.find?_some hb
      simpa using this
    have hbc : ¬b.1 = c := by rw [hbk]; exact hk
    simp [getBucket, hb, hbc]

lemma getBucket_map_nil (l : List String) (k : String) :
    getBucket (l.map fun c => (c, ([] : List ChapterEntry))) k = [] := by
  induction l with
  | nil => rfl
  | cons c t ih =>
    simp only [List.map_cons, getBucket, List.find?] at ih ⊢
    by_cases h : (c == k) = true
    · simp [h]
    · simp only [Bool.not_eq_true] at h
      simp only [h]
      exact ih

lemma resolveChapter_cible_mem (ch : Chapitre) (off : Nat) (tt : String)
    (pg : Nat) (cbl : String)
    (h : resolveChapter ch off = some (tt, pg, cbl)) :
    cbl ∈ categories_connues := by
  rcases htt : ch.titre with _ | t0 <;> rcases hpd : ch.page_debut with _ | p0 <;>
    simp only [resolveChapter, htt, hpd, Option.some.injEq,
      Prod.mk.injEq, reduceCtorEq] at h
  obtain ⟨-, -, hcbl⟩ := h
  subst hcbl
  by_cases hm : strLower (ch.categorie.getD "autre") ∈ categories_connues
  · rw [if_pos hm]
    exact hm
  · simp only [if_neg hm]
    decide

lemma chapterFoldl_getBucket (f : String) (off : Nat) (chs : List Chapitre)
    (acc : List OutlineNode × List (String × List ChapterEntry))
    (hkeys : acc.2.map Prod.fst = categories_connues) (k : String) :
    getBucket ((chs.foldl (chapterFold f off) acc).2) k
      = getBucket acc.2 k ++ chapterEntries f off k chs := by
  induction chs generalizing acc with
  | nil => simp [chapterEntries]
  | cons ch rest ih =>
    rw [List.foldl_cons]
    have hkeys' : (chapterFold f off acc ch).2.map Prod.fst
        = categories_connues := by rw [chapterFold_keys, hkeys]
    rw [ih _ hkeys']
    rcases hres : resolveChapter ch off with _ | ⟨tt, pg, cbl⟩
    · simp [chapterFold, hres, chapterEntries]
    · by_cases hck : cbl = k
      · subst hck
        have hmem : cbl ∈ acc.2.map Prod.fst := by
          rw [hkeys]
          exact resolveChapter_cible_mem ch off tt pg cbl hres
        simp only [chapterFold, hres]
        rw [getBucket_addToBucket_self _ _ _ hmem]
        simp [chapterEntries, hres, List.append_assoc]
      · simp only [chapterFold, hres]
        rw [getBucket_addToBucket_other _ _ _ _ (fun hkc => hck hkc.symm)]
        simp [chapterEntries, hres, hck]

lemma foldl_mergeStep_getBucket (env : Env) (cats : List Catalogue)
    (st : MergeState) (hok : ∀ c ∈ cats, ∃ n, env c.url = .ok n)
    (hkeys : st.buckets.map Prod.fst = categories_connues) (k : String) :
    ∃ st', cats.foldl (mergeStep env) (.ok st) = .ok st' ∧
      getBucket st'.buckets k
        = getBucket st.buckets k ++ allEntries env cats st.page_offset k := by
  induction cats generalizing st with
  | nil => exact ⟨st, rfl, by simp [allEntries]⟩
  | cons c cs ih =>
    obtain ⟨n, hn⟩ := hok c (List.mem_cons_self _ _)
    have hsrc : srcPages env c = n := by simp [srcPages, hn]
    have hstep : processCatalogue env st c = .ok
        { page_offset := st.page_offset + n
        , offsets := st.offsets ++ [st.page_offset]
        , suppliers := st.suppliers ++
            [.mk ("📁 " ++ c.fournisseur) st.page_offset
              (c.chapitres.foldl (chapterFold c.fournisseur st.page_offset)
                ([], st.buckets)).1]
        , buckets := (c.chapitres.foldl
            (chapterFold c.fournisseur st.page_offset) ([], st.buckets)).2 } := by
      simp [processCatalogue, hn]
    have hkeys1 : ((c.chapitres.foldl
        (chapterFold c.fournisseur st.page_offset) ([], st.buckets)).2).map
          Prod.fst = categories_connues := by
      rw [chapterFoldl_keys]
      exact hkeys
    obtain ⟨st', hfold, hget⟩ :=
      ih { page_offset := st.page_offset + n
         , offsets := st.offsets ++ [st.page_offset]
         , suppliers := st.suppliers ++
             [.mk ("📁 " ++ c.fournisseur) st.page_offset
               (c.chapitres.foldl (chapterFold c.fournisseur st.page_offset)
                 ([], st.buckets)).1]
         , buckets := (c.chapitres.foldl
             (chapterFold c.fournisseur st.page_offset) ([], st.buckets)).2 }
        (fun a ha => hok a (List.mem_cons_of_mem _ ha)) hkeys1
    refine ⟨st', ?_, ?_⟩
    · rw [List.foldl_cons]
      show cs.foldl (mergeStep env) (Except.bind (.ok st) _) = .ok st'
      rw [Except.bind, hstep]
      exact hfold
    · rw [hget]
      have hbk := chapterFoldl_getBucket c.fournisseur st.page_offset
        c.chapitres ([], st.buckets) hkeys k
      simp only at hbk
      rw [hbk]
      simp [allEntries, hsrc, List.append_assoc]

lemma buildCatRoot_children (bks : List (String × List ChapterEntry)) :
    (buildCatRoot bks).children
      = (bks.filter fun b => !b.2.isEmpty).map (fun b =>
          OutlineNode.mk b.1.capitalize
            ((b.2.head?.map ChapterEntry.page).getD 0)
            (b.2.map entryLeaf)) := by
  induction bks with
  | nil => rfl
  | cons b t ih =>
    rcases b with ⟨key, l⟩
    rcases l with _ | ⟨e, es⟩
    · simpa [buildCatRoot, OutlineNode.children, List.filterMap_cons,
        List.filter_cons] using ih
    · simpa [buildCatRoot, OutlineNode.children, List.filterMap_cons,
        List.filter_cons] using ih

/-- C6: on a successfully merged request, the last child of the root is the
"navigation by category" node; its children are exactly one node per
*non-empty* bucket, in the fixed `categories_connues` enumeration order
(empty buckets are omitted), each titled with the capitalized category,
targeting the page of the first entry of its bucket, with one leaf per
entry in bucket order targeting that entry's own absolute page; and each
bucket's contents are exactly the resolvable chapters assigned to that
category, in the order they were encountered across the request, at their
absolute pages. -/
theorem c6_category_subtree (env : Env) (cats : List Catalogue)
    (t : String) (hne : cats ≠ [])
    (hok : ∀ c ∈ cats, ∃ n, env c.url = .ok n) :
    ∃ (out : MergeOutput) (sup : List OutlineNode)
      (bks : List (String × List ChapterEntry)),
      fusion_pdf env cats t = .ok out ∧
      out.root.children = sup ++ [buildCatRoot bks] ∧
      bks.map Prod.fst = categories_connues ∧
      (buildCatRoot bks).children
        = (bks.filter fun b => !b.2.isEmpty).map (fun b =>
            OutlineNode.mk b.1.capitalize
              ((b.2.head?.map ChapterEntry.page).getD 0)
              (b.2.map entryLeaf)) ∧
      (∀ k, getBucket bks k = allEntries env cats 0 k) := by
  obtain ⟨st', hfold, -, -, -, hkeys⟩ := foldl_mergeStep_ok env cats initState hok
  have hkeys' : st'.buckets.map Prod.fst = categories_connues := by
    rw [hkeys]
    rfl
  refine ⟨⟨st'.page_offset, st'.offsets,
      .mk t 0 (st'.suppliers ++ [buildCatRoot st'.buckets])⟩,
    st'.suppliers, st'.buckets, ?_, rfl, hkeys', buildCatRoot_children _, ?_⟩
  · simp only [fusion_pdf, if_neg hne]
    rw [hfold]
  · intro k
    obtain ⟨st'', hfold'', hget⟩ := foldl_mergeStep_getBucket env cats
      initState hok rfl k
    have hst : st'' = st' := by
      rw [hfold] at hfold''
      exact (Except.ok.inj hfold'').symm
    subst hst
    rw [hget]
    have : getBucket initState.buckets k = [] := getBucket_map_nil _ k
    rw [this]
    simp [initState]

theorem c6_category_subtree_witness :
    ∃ (out : MergeOutput) (sup : List OutlineNode)
      (bks : List (String × List ChapterEntry)),
      fusion_pdf envW [catA, catGood] "T" = .ok out ∧
      out.root.children = sup ++ [buildCatRoot bks] ∧
      bks.map Prod.fst = categories_connues ∧
      (buildCatRoot bks).children
        = (bks.filter fun b => !b.2.isEmpty).map (fun b =>
            OutlineNode.mk b.1.capitalize
              ((b.2.head?.map ChapterEntry.page).getD 0)
              (b.2.map entryLeaf)) ∧
      (∀ k, getBucket bks k = allEntries envW [catA, catGood] 0 k) :=
  c6_category_subtree envW [catA, catGood] "T" (by simp)
    (by
      intro c hc
      simp only [List.mem_cons, List.not_mem_nil, or_false] at hc
      rcases hc with rfl | rfl
      · exact ⟨3, rfl⟩
      · exact ⟨2, rfl⟩)

/-! ## The retry policy (C9) -/

lemma goFetch_attempts_le (url : String) (outs : List Attempt) :
    ∀ r a s, (goFetch url outs r a s).attemptsMade ≤ a + r + 1 := by
  induction outs with
  | nil =>
    intro r a s
    simp only [goFetch]
    omega
  | cons o rest ih =>
    intro r a s
    simp only [goFetch]
    by_cases hro : retryable o = true
    · rw [if_pos hro]
      cases r with
      | zero => simp
      | succ r' =>
        calc (goFetch url rest r' (a + 1) _).attemptsMade
            ≤ (a + 1) + r' + 1 := ih r' (a + 1) _
          _ ≤ a + (r' + 1) + 1 := by omega
    · rw [if_neg hro]
      rcases o with _ | c
      · simp
      · by_cases hlt : c < 400 <;> simp [hlt]

lemma goFetch_backoffs (url : String) (outs : List Attempt) :
    ∀ r a s, r ≤ retry_total →
      s = (List.range (retry_total - r)).map
        (fun i => backoff_factor * 2 ^ i) →
      ∃ k ≤ retry_total, (goFetch url outs r a s).backoffs
        = (List.range k).map (fun i => backoff_factor * 2 ^ i) := by
  induction outs with
  | nil =>
    intro r a s hr hs
    exact ⟨retry_total - r, by omega, by simp [goFetch, hs]⟩
  | cons o rest ih =>
    intro r a s hr hs
    simp only [goFetch]
    by_cases hro : retryable o = true
    · rw [if_pos hro]
      cases r with
      | zero => exact ⟨retry_total, le_refl _, by simpa using hs⟩
      | succ r' =>
        refine ih r' (a + 1) _ (by omega) ?_
        rw [hs]
        have hlen : ((List.range (retry_total - (r' + 1))).map
            (fun i => backoff_factor * 2 ^ i)).length
              = retry_total - (r' + 1) := by simp
        rw [hlen]
        have hsucc : retry_total - r' = (retry_total - (r' + 1)) + 1 := by
          omega
        rw [hsucc, List.range_succ, List.map_append]
        rfl
    · rw [if_neg hro]
      rcases o with _ | c
      · exact ⟨retry_total - r, by omega, hs⟩
      · refine ⟨retry_total - r, by omega, ?_⟩
        split <;> first
        | exact hs
        | (split <;> exact hs)

/-- C9: the configured retry policy retries exactly on transient failures —
connection errors and the forcelist statuses 429, 500, 502, 503, 504; any
other HTTP error status (≥ 400, e.g. 404 or 403) is never retried: it
fails the fetch on the very first attempt, with no backoff sleeps and an
error carrying the URL and the status; the number of retries is bounded by
`total = 5` (so at most 6 attempts in all), and the backoff sleeps follow
the exponential schedule `backoff_factor * 2^i` with
`backoff_factor = 1.5`. -/
theorem c9_retry_policy (url : String) (c : Nat) (rest outs : List Attempt)
    (hc4 : 400 ≤ c) (hcf : c ∉ status_forcelist) :
    fetch_pdf_stream_to_file url (.status c :: rest)
      = ⟨1, [], .error ("Erreur téléchargement PDF: " ++ toString c
          ++ " Error for url: " ++ url)⟩ ∧
    (∀ o, retryable o = true ↔
      (o = .connError ∨ ∃ s, o = .status s ∧ s ∈ status_forcelist)) ∧
    (fetch_pdf_stream_to_file url outs).attemptsMade ≤ retry_total + 1 ∧
    (∃ k ≤ retry_total, (fetch_pdf_stream_to_file url outs).backoffs
      = (List.range k).map (fun i => backoff_factor * 2 ^ i)) := by
  refine ⟨?_, ?_, ?_, ?_⟩
  · have hro : retryable (.status c) = false := by
      simp [retryable, hcf]
    have hlt : ¬c < 400 := by omega
    simp [fetch_pdf_stream_to_file, goFetch, hro, hlt]
  · intro o
    rcases o with _ | s <;> simp [retryable]
  · simpa using goFetch_attempts_le url outs retry_total 0 []
  · exact goFetch_backoffs url outs retry_total 0 [] (le_refl _) (by simp)

theorem c9_retry_policy_witness :
    fetch_pdf_stream_to_file "http://host/x.pdf" [.status 404]
      = ⟨1, [], .error ("Erreur téléchargement PDF: " ++ toString 404
          ++ " Error for url: " ++ "http://host/x.pdf")⟩ ∧
    (∀ o, retryable o = true ↔
      (o = .connError ∨ ∃ s, o = .status s ∧ s ∈ status_forcelist)) ∧
    (fetch_pdf_stream_to_file "http://host/x.pdf"
        [.status 503, .connError, .status 200]).attemptsMade
      ≤ retry_total + 1 ∧
    (∃ k ≤ retry_total, (fetch_pdf_stream_to_file "http://host/x.pdf"
        [.status 503, .connError, .status 200]).backoffs
      = (List.range k).map (fun i => backoff_factor * 2 ^ i)) :=
  c9_retry_policy "http://host/x.pdf" 404 []
    [.status 503, .connError, .status 200] (by norm_num) (by decide)

end FusionPdf
